import Mathlib

/-
Verification of the pycomedi core against its specification.

Shallow embedding of:
  * the ChanSpec channel-specifier bit packing (chanspec.pyx),
  * the _Enum / _Flag constant registries and FlagValue algebra (constant.pyx),
  * the BitwiseOperator rich comparisons (constant.pyx),
  * the Insn and Command buffer management (instruction.pyx, command.pyx),
  * the StreamingSubdevice.command_test severity table (subdevice.pyx).

Machine integers are modelled as Nat (Python ints are unbounded; the C
cells truncate at explicit widths).  Fallible operations return Except or
Option, or a state paired with an optional error.
-/

/- ===================== ChanSpec bit packing ===================== -/

/-- ChanSpec._all (chanspec.pyx): the 32-bit all-ones mask 0xffffffff. -/
def CS_ALL : Nat := 0xffffffff

/-- Modelled from the spec: CR._all.value, the combined bit mask of the
ChanSpec flag family.  The numeric value comes from the external SWIG
comedi module (CR_FLAGS_MASK in comedi.h), which is not part of this
repository; the spec fixes the flag span as bits 26 to 31 of the packed
word, i.e. 0xfc000000. -/
def CR_ALL_VALUE : Nat := 0xfc000000

/-- ChanSpec._chan_get: value & 0xff. -/
def chan_get (value : Nat) : Nat := value &&& 0xff

/-- ChanSpec._chan_set: value &= _all - 0xff; value |= v & 0xff. -/
def chan_set (value v : Nat) : Nat :=
  (value &&& (CS_ALL - 0xff)) ||| (v &&& 0xff)

/-- ChanSpec._range_get: (value >> 16) & 0xff. -/
def range_get (value : Nat) : Nat := (value >>> 16) &&& 0xff

/-- ChanSpec._range_set: value &= _all - (0xff << 16); value |= (v & 0xff) << 16. -/
def range_set (value v : Nat) : Nat :=
  (value &&& (CS_ALL - (0xff <<< 16))) ||| ((v &&& 0xff) <<< 16)

/-- ChanSpec._aref_get, numerically: (value >> 24) & 0x03 (the source then
looks this 2-bit code up in the AREF registry, whose member values are
exactly 0,1,2,3). -/
def aref_get (value : Nat) : Nat := (value >>> 24) &&& 0x03

/-- ChanSpec._aref_set: value &= _all - (0x03 << 24); value |= (v & 0x03) << 24. -/
def aref_set (value v : Nat) : Nat :=
  (value &&& (CS_ALL - (0x03 <<< 24))) ||| ((v &&& 0x03) <<< 24)

/-- ChanSpec._flags_get, numerically: value & CR._all.value (the source
wraps this in a FlagValue over the CR registry). -/
def flags_get (value : Nat) : Nat := value &&& CR_ALL_VALUE

/-- ChanSpec._flags_set: value &= _all - CR._all.value; value |= v & CR._all.value. -/
def flags_set (value v : Nat) : Nat :=
  (value &&& (CS_ALL - CR_ALL_VALUE)) ||| (v &&& CR_ALL_VALUE)

/-- ChanSpec.__init__(chan, range, aref, flags): starts from value = 0 and
runs the four field setters in declaration order. -/
def chanSpec_init (chan range aref flags : Nat) : Nat :=
  flags_set (aref_set (range_set (chan_set 0 chan) range) aref) flags

/- ===================== _Flag.get / _Flag.set algebra ===================== -/

/-- _Flag.set(value, name, status): value | flag.value when status is
true, else (value | flag.value) - flag.value.  The named member has
already been resolved to its numeric value. -/
def flag_set (value member_value : Nat) (status : Bool) : Nat :=
  if status then value ||| member_value
  else (value ||| member_value) - member_value

/-- _Flag.get(value, name): asserts flag.value != 0, then returns
value & flag.value == flag.value.  The failed assertion is modelled as
none. -/
def flag_get (value member_value : Nat) : Option Bool :=
  if member_value = 0 then none
  else some (decide (value &&& member_value = member_value))

/- ===================== Insn / Command buffers ===================== -/

/-- Conversion of one Python integer into a C cell of bit width w.
Cython range-checks the conversion (an out-of-range value raises
OverflowError, modelled as none). -/
def storeCell (w x : Nat) : Option Nat :=
  if x < 2 ^ w then some x else none

/-- The element-copy loop of _data_set / _chanlist_set: writes every
element in order, failing at the first out-of-range element. -/
def storeAll (w : Nat) : List Nat → Option (List Nat)
  | [] => some []
  | x :: xs =>
    match storeCell w x, storeAll w xs with
    | some c, some cs => some (c :: cs)
    | _, _ => none

/-- The buffer-owning state of an Insn: the recorded length n and the
data pointer (none models NULL). -/
structure InsnState where
  n : Nat
  data : Option (List Nat)
deriving DecidableEq

/-- Insn.__cinit__: data NULL, length zero. -/
def insn_fresh : InsnState := ⟨0, none⟩

/-- Outcome of a buffer assignment.  ok carries the new state; memErr is
the PyComediError path for a failed allocation, carrying the observable
post-failure state; ovErr is a failed Cython element conversion during
the copy loop (no claim depends on its partially written post-state, so
none is carried). -/
inductive SetOutcome (σ : Type)
  | ok (s : σ)
  | memErr (s : σ) (message : String)
  | ovErr
deriving DecidableEq

/-- Insn._data_set(value): free the old buffer, record the new length,
allocate (the allocOk argument models the malloc outcome); on failure
reset the length to zero and raise PyComediError("out of memory?"),
else copy the elements into the 32-bit lsampl_t cells. -/
def insn_data_set (_s : InsnState) (value : List Nat) (allocOk : Bool) :
    SetOutcome InsnState :=
  if allocOk then
    match storeAll 32 value with
    | some cells => SetOutcome.ok ⟨value.length, some cells⟩
    | none => SetOutcome.ovErr
  else SetOutcome.memErr ⟨0, none⟩ "out of memory?"

/-- Insn._data_get: a fresh array of the recorded length, copied out of
the buffer cell by cell (a NULL buffer is only reachable with length
zero and reads as the empty array). -/
def insn_data_get (s : InsnState) : List Nat :=
  match s.data with
  | none => []
  | some cells => cells

/-- The buffer-owning state of a Command: chanlist and data with their
recorded lengths (none models NULL). -/
structure CmdState where
  chanlist_len : Nat
  chanlist : Option (List Nat)
  data_len : Nat
  data : Option (List Nat)
deriving DecidableEq

/-- Command.__cinit__: both buffers NULL, lengths zero. -/
def cmd_fresh : CmdState := ⟨0, none, 0, none⟩

/-- Elements accepted by Command.chanlist assignment: either a plain
packed value (an int, a ChanSpec or another BitwiseOperator, read
through bitwise_value) or a channel-like object exposing a chanspec()
method, whose chanspec() builds a ChanSpec from its chan, range and
aref fields with flags 0. -/
inductive ChanlistEntry
  | raw (value : Nat)
  | channelLike (chan range aref : Nat)
deriving DecidableEq

/-- The per-entry resolution in Command._chanlist_set: if
hasattr(x, "chanspec") then x = x.chanspec(); then bitwise_value(x). -/
def resolveEntry : ChanlistEntry → Nat
  | ChanlistEntry.raw v => v
  | ChanlistEntry.channelLike c r a => chanSpec_init c r a 0

/-- Command._chanlist_set: free the old chanlist, record the new
length, allocate, on failure zero the length and raise
PyComediError("out of memory?"), else resolve each entry to its packed
word and copy into the 32-bit unsigned int cells. -/
def cmd_chanlist_set (s : CmdState) (value : List ChanlistEntry)
    (allocOk : Bool) : SetOutcome CmdState :=
  if allocOk then
    match storeAll 32 (value.map resolveEntry) with
    | some cells =>
        SetOutcome.ok ⟨value.length, some cells, s.data_len, s.data⟩
    | none => SetOutcome.ovErr
  else SetOutcome.memErr ⟨0, none, s.data_len, s.data⟩ "out of memory?"

/-- Command._chanlist_get, numerically: a fresh list of the stored
packed words (the source wraps each word in a ChanSpec). -/
def cmd_chanlist_get (s : CmdState) : List Nat :=
  match s.chanlist with
  | none => []
  | some cells => cells

/-- Command._data_set: same discipline as Insn._data_set but the cells
are sampl_t.  Modelled from the spec for the cell width: sampl_t is the
16-bit unsigned sample type declared in _comedi_h.pxd (not under src);
the in-src getter decodes the cells through a numpy uint16 view. -/
def cmd_data_set (s : CmdState) (value : List Nat) (allocOk : Bool) :
    SetOutcome CmdState :=
  if allocOk then
    match storeAll 16 value with
    | some cells =>
        SetOutcome.ok ⟨s.chanlist_len, s.chanlist, value.length, some cells⟩
    | none => SetOutcome.ovErr
  else SetOutcome.memErr ⟨s.chanlist_len, s.chanlist, 0, none⟩ "out of memory?"

/-- Command._data_get: a fresh numpy uint16 view of the stored cells. -/
def cmd_data_get (s : CmdState) : List Nat :=
  match s.data with
  | none => []
  | some cells => cells

/- ===================== command_test severity table ===================== -/

/-- StreamingSubdevice.__cinit__: the fixed six-entry severity table,
index 0 meaning fully valid (no error string). -/
def command_test_errors : List (Option String) :=
  [none,
   some "unsupported *_src trigger",
   some "unsupported *_src combo, or multiple triggers",
   some "*_arg out of range",
   some "*_arg required adjustment",
   some "invalid chanlist"]

/-- StreamingSubdevice.command_test: the external driver call returns a
numeric severity code and the method returns the matching table entry
(the driver only ever returns 0..5; out-of-range indices would raise
and are not modelled beyond the default). -/
def command_test (driverRet : Nat) : Option String :=
  command_test_errors.getD driverRet none

/- ===================== BitwiseOperator comparisons ===================== -/

/-- _Enum._add_item value normalization: SWIG signs the unsigned 32-bit
flag constants, so a negative raw value v is stored as (1 << 32) + v. -/
def normalize_value (v : Int) : Int :=
  if v < 0 then ((1 <<< 32 : Nat) : Int) + v else v

/-- BitwiseOperator.__richcmp__(self, other, op): when other is None it
is replaced by self.value - 1; op codes 0..5 are the Python lt, le, eq,
ne, gt, ge; any other op raises ValueError (modelled as none). -/
def richcmp (selfValue : Int) (other : Option Int) (op : Nat) : Option Bool :=
  let o : Int :=
    match other with
    | none => selfValue - 1
    | some x => x
  if op = 0 then some (decide (selfValue < o))
  else if op = 1 then some (decide (selfValue ≤ o))
  else if op = 2 then some (decide (selfValue = o))
  else if op = 3 then some (decide (selfValue ≠ o))
  else if op = 4 then some (decide (selfValue > o))
  else if op = 5 then some (decide (selfValue ≥ o))
  else none

/- ===================== _Enum / _Flag registries ===================== -/

/-- A registry member (_NamedInt), reduced to its name and its
normalized unsigned value (the doc string plays no role here). -/
structure NamedInt where
  name : String
  value : Nat
deriving DecidableEq

/-- Payload of the ValueError raised on a value collision in
_Enum.append: the registry name, the incoming member name, the name of
the member already registered under the value, and the value. -/
structure ValueCollision where
  registry : String
  newName : String
  oldName : String
  value : Nat
deriving DecidableEq

/-- Payload of the ValueError raised by _Flag.__init__ on multiple
multi-bit members: the registry name and both offending members. -/
structure MultiBitConflict where
  registry : String
  firstName : String
  firstValue : Nat
  secondName : String
  secondValue : Nat
deriving DecidableEq

/-- _value_keys lookup: dict writes overwrite, so the most recently
appended member with the given value wins. -/
def valueKeys (members : List NamedInt) (v : Nat) : Option NamedInt :=
  members.reverse.find? (fun m => m.value == v)

/-- _name_keys lookup: the most recently appended member with the given
name. -/
def nameKeys (members : List NamedInt) (s : String) : Option NamedInt :=
  members.reverse.find? (fun m => m.name == s)

/-- _Enum.append(item): the item joins the sequence and _name_keys;
then, if the value is already in _value_keys and the item name is
nonempty, ValueError is raised (killing construction), else _value_keys
and the attribute are updated. -/
def enumAppend (regName : String) (members : List NamedInt)
    (item : NamedInt) : Except ValueCollision (List NamedInt) :=
  match valueKeys members item.value with
  | some old =>
    if item.name ≠ "" then
      Except.error ⟨regName, item.name, old.name, item.value⟩
    else Except.ok (members ++ [item])
  | none => Except.ok (members ++ [item])

/-- _Enum.__init__ member collection: append every filtered item in
order (the name filtering and value normalization have already produced
the items list). -/
def buildEnum (regName : String) (members : List NamedInt) :
    List NamedInt → Except ValueCollision (List NamedInt)
  | [] => Except.ok members
  | item :: rest =>
    match enumAppend regName members item with
    | Except.error c => Except.error c
    | Except.ok ms => buildEnum regName ms rest

/-- The multi-bit test of _Flag.__init__.  The source tests
value < 0 or abs(log(value, 2)) %% 1 > 1e-13; values are already
normalized nonnegative and below 2^32, where the float tolerance check
holds exactly when the value is neither zero nor a power of two (the
nearest distance of log2 of a non-power below 2^32 to an integer is
about 3.4e-10, far above 1e-13), i.e. when more than one bit is set. -/
def isMultiBit (v : Nat) : Bool := v &&& (v - 1) != 0

/-- The sentinel scan loop of _Flag.__init__ over the sorted members:
a zero-valued member becomes _empty (last wins), a multi-bit member
becomes _all, and a second multi-bit member raises ValueError. -/
def scanSentinels (regName : String)
    (acc : Option NamedInt × Option NamedInt) :
    List NamedInt → Except MultiBitConflict (Option NamedInt × Option NamedInt)
  | [] => Except.ok acc
  | f :: rest =>
    if f.value = 0 then scanSentinels regName (some f, acc.2) rest
    else if isMultiBit f.value then
      match acc.2 with
      | some prev =>
        Except.error ⟨regName, prev.name, prev.value, f.name, f.value⟩
      | none => scanSentinels regName (acc.1, some f) rest
    else scanSentinels regName acc rest

/-- Stable insertion of a member into a value-sorted list (helper for
the sort in _Enum.__init__). -/
def insertSorted (m : NamedInt) : List NamedInt → List NamedInt
  | [] => [m]
  | x :: xs => if x.value ≤ m.value then x :: insertSorted m xs else m :: x :: xs

/-- _Enum.__init__ final step: self.sort(key=lambda item: item.value),
a stable ascending sort by value (embedded as insertion sort). -/
def sortByValue : List NamedInt → List NamedInt
  | [] => []
  | x :: xs => insertSorted x (sortByValue xs)

/-- Construction failure of a registry. -/
inductive RegError
  | collision (c : ValueCollision)
  | multiBit (c : MultiBitConflict)
deriving DecidableEq

/-- A constructed _Flag registry: the visible member sequence, the full
appended member list (the _name_keys domain), and the two sentinels. -/
structure FlagReg where
  members : List NamedInt
  appended : List NamedInt
  empty : Option NamedInt
  all : Option NamedInt
deriving DecidableEq

/-- _Flag.__init__: collect and sort the members (_Enum.__init__), scan
for the sentinels, then remove each present sentinel from the visible
sequence with list.remove, which deletes the first member comparing
equal, i.e. the first member with the same value. -/
def flagInit (regName : String) (items : List NamedInt) :
    Except RegError FlagReg :=
  match buildEnum regName [] items with
  | Except.error c => Except.error (RegError.collision c)
  | Except.ok built =>
    let sorted := sortByValue built
    match scanSentinels regName (none, none) sorted with
    | Except.error c => Except.error (RegError.multiBit c)
    | Except.ok acc =>
      let v1 := match acc.1 with
        | some e => List.eraseP (fun (m : NamedInt) => m.value == e.value) sorted
        | none => sorted
      let v2 := match acc.2 with
        | some a => List.eraseP (fun (m : NamedInt) => m.value == a.value) v1
        | none => v1
      Except.ok ⟨v2, built, acc.1, acc.2⟩

/- ===================== bit-level toolkit ===================== -/

theorem testBit_ge {x k i : Nat} (hx : x < 2 ^ k) (hik : k ≤ i) :
    x.testBit i = false :=
  Nat.testBit_lt_two_pow (lt_of_lt_of_le hx (Nat.pow_le_pow_right (by norm_num) hik))

theorem tb_ff (i : Nat) : Nat.testBit 0xff i = decide (i < 8) := by
  rw [show (0xff : Nat) = 2 ^ 8 - 1 from rfl, Nat.testBit_two_pow_sub_one]

theorem tb_03 (i : Nat) : Nat.testBit 0x03 i = decide (i < 2) := by
  rw [show (0x03 : Nat) = 2 ^ 2 - 1 from rfl, Nat.testBit_two_pow_sub_one]

theorem tb_allones (i : Nat) : Nat.testBit 0xffffffff i = decide (i < 32) := by
  rw [show (0xffffffff : Nat) = 2 ^ 32 - 1 from rfl, Nat.testBit_two_pow_sub_one]

theorem tb_low26 (i : Nat) : Nat.testBit 0x03ffffff i = decide (i < 26) := by
  rw [show (0x03ffffff : Nat) = 2 ^ 26 - 1 from rfl, Nat.testBit_two_pow_sub_one]

theorem tb_fc (i : Nat) :
    Nat.testBit 0xfc000000 i = decide (26 ≤ i ∧ i < 32) := by
  rcases Nat.lt_or_ge i 32 with h | h
  · interval_cases i <;> decide
  · rw [testBit_ge (by norm_num) h]
    symm
    simp only [decide_eq_false_iff_not]
    omega

theorem tb_mask_chan (i : Nat) :
    Nat.testBit 0xffffff00 i = decide (8 ≤ i ∧ i < 32) := by
  rcases Nat.lt_or_ge i 32 with h | h
  · interval_cases i <;> decide
  · rw [testBit_ge (by norm_num) h]
    symm
    simp only [decide_eq_false_iff_not]
    omega

theorem tb_mask_range (i : Nat) :
    Nat.testBit 0xff00ffff i = decide (i < 32 ∧ (i < 16 ∨ 24 ≤ i)) := by
  rcases Nat.lt_or_ge i 32 with h | h
  · interval_cases i <;> decide
  · rw [testBit_ge (by norm_num) h]
    symm
    simp only [decide_eq_false_iff_not]
    omega

theorem tb_mask_aref (i : Nat) :
    Nat.testBit 0xfcffffff i = decide (i < 32 ∧ (i < 24 ∨ 26 ≤ i)) := by
  rcases Nat.lt_or_ge i 32 with h | h
  · interval_cases i <;> decide
  · rw [testBit_ge (by norm_num) h]
    symm
    simp only [decide_eq_false_iff_not]
    omega

/-- The four mask subtractions written in the source, evaluated. -/
theorem cs_sub_chan : CS_ALL - 0xff = 0xffffff00 := by decide

theorem cs_sub_range : CS_ALL - (0xff <<< 16) = 0xff00ffff := by decide

theorem cs_sub_aref : CS_ALL - (0x03 <<< 24) = 0xfcffffff := by decide

theorem cs_sub_flags : CS_ALL - CR_ALL_VALUE = 0x03ffffff := by decide

/- bounds for the i >= 32 branches -/

theorem land_lt_32 {x : Nat} (c : Nat) (hc : c < 2 ^ 32) : x &&& c < 2 ^ 32 :=
  lt_of_le_of_lt Nat.and_le_right hc

theorem chan_set_lt (value v : Nat) : chan_set value v < 2 ^ 32 := by
  unfold chan_set
  exact Nat.or_lt_two_pow (land_lt_32 _ (by decide)) (land_lt_32 _ (by decide))

theorem range_set_lt (value v : Nat) : range_set value v < 2 ^ 32 := by
  unfold range_set
  refine Nat.or_lt_two_pow (land_lt_32 _ (by decide)) ?_
  rw [Nat.shiftLeft_eq]
  have h : v &&& 0xff ≤ 0xff := Nat.and_le_right
  calc (v &&& 0xff) * 2 ^ 16 ≤ 0xff * 2 ^ 16 := Nat.mul_le_mul_right _ h
    _ < 2 ^ 32 := by norm_num

theorem aref_set_lt (value v : Nat) : aref_set value v < 2 ^ 32 := by
  unfold aref_set
  refine Nat.or_lt_two_pow (land_lt_32 _ (by decide)) ?_
  rw [Nat.shiftLeft_eq]
  have h : v &&& 0x03 ≤ 0x03 := Nat.and_le_right
  calc (v &&& 0x03) * 2 ^ 24 ≤ 0x03 * 2 ^ 24 := Nat.mul_le_mul_right _ h
    _ < 2 ^ 32 := by norm_num

theorem flags_set_lt (value v : Nat) : flags_set value v < 2 ^ 32 := by
  unfold flags_set
  exact Nat.or_lt_two_pow (land_lt_32 _ (by decide)) (land_lt_32 _ (by decide))

theorem cr_all_eq : CR_ALL_VALUE = 0xfc000000 := rfl

theorem chanSpec_init_lt (c r a f : Nat) : chanSpec_init c r a f < 2 ^ 32 := by
  unfold chanSpec_init
  exact flags_set_lt _ _

/-- The packed word of the spec, as one left-associated OR chain. -/
theorem packed_lt (c r a f : Nat) :
    (c &&& 0xff) ||| ((r &&& 0xff) <<< 16) ||| ((a &&& 0x03) <<< 24) |||
      (f &&& CR_ALL_VALUE) < 2 ^ 32 := by
  refine Nat.or_lt_two_pow (Nat.or_lt_two_pow (Nat.or_lt_two_pow
    (land_lt_32 _ (by decide)) ?_) ?_) (land_lt_32 _ (by decide))
  · rw [Nat.shiftLeft_eq]
    calc (r &&& 0xff) * 2 ^ 16 ≤ 0xff * 2 ^ 16 :=
          Nat.mul_le_mul_right _ Nat.and_le_right
      _ < 2 ^ 32 := by norm_num
  · rw [Nat.shiftLeft_eq]
    calc (a &&& 0x03) * 2 ^ 24 ≤ 0x03 * 2 ^ 24 :=
          Nat.mul_le_mul_right _ Nat.and_le_right
      _ < 2 ^ 32 := by norm_num

/-- Running the four setters from zero produces exactly the packed word
of spec section 4.3. -/
theorem chanSpec_init_packed (c r a f : Nat) :
    chanSpec_init c r a f =
      (c &&& 0xff) ||| ((r &&& 0xff) <<< 16) ||| ((a &&& 0x03) <<< 24) |||
        (f &&& CR_ALL_VALUE) := by
  apply Nat.eq_of_testBit_eq
  intro i
  rcases Nat.lt_or_ge i 32 with h | h
  · unfold chanSpec_init flags_set aref_set range_set chan_set
    rw [cs_sub_chan, cs_sub_range, cs_sub_aref, cs_sub_flags, cr_all_eq]
    interval_cases i <;>
      simp [Nat.testBit_lor, Nat.testBit_land, Nat.testBit_shiftLeft,
        tb_ff, tb_03, tb_fc, tb_mask_chan, tb_mask_range, tb_mask_aref,
        tb_low26, Nat.zero_testBit]
  · rw [testBit_ge (chanSpec_init_lt c r a f) h, testBit_ge (packed_lt c r a f) h]

theorem chanSpec_init_chan (c r a f : Nat) (hc : c < 256) :
    chan_get (chanSpec_init c r a f) = c := by
  rw [chanSpec_init_packed]
  apply Nat.eq_of_testBit_eq
  intro i
  have hc8 : ∀ j, 8 ≤ j → c.testBit j = false := fun j hj =>
    testBit_ge (show c < 2 ^ 8 by omega) hj
  unfold chan_get
  rw [cr_all_eq]
  rcases Nat.lt_or_ge i 32 with h | h
  · interval_cases i <;>
      simp [Nat.testBit_lor, Nat.testBit_land, Nat.testBit_shiftLeft,
        tb_ff, tb_03, tb_fc, hc8]
  · rw [testBit_ge (land_lt_32 _ (by decide)) h, hc8 i (by omega)]

theorem chanSpec_init_range (c r a f : Nat) (hr : r < 256) :
    range_get (chanSpec_init c r a f) = r := by
  rw [chanSpec_init_packed]
  apply Nat.eq_of_testBit_eq
  intro i
  have hr8 : ∀ j, 8 ≤ j → r.testBit j = false := fun j hj =>
    testBit_ge (show r < 2 ^ 8 by omega) hj
  unfold range_get
  rw [cr_all_eq]
  rcases Nat.lt_or_ge i 32 with h | h
  · interval_cases i <;>
      simp [Nat.testBit_lor, Nat.testBit_land, Nat.testBit_shiftLeft,
        Nat.testBit_shiftRight, tb_ff, tb_03, tb_fc, hr8]
  · rw [testBit_ge (land_lt_32 _ (by decide)) h, hr8 i (by omega)]

theorem chanSpec_init_aref (c r a f : Nat) (ha : a < 4) :
    aref_get (chanSpec_init c r a f) = a := by
  rw [chanSpec_init_packed]
  apply Nat.eq_of_testBit_eq
  intro i
  have ha2 : ∀ j, 2 ≤ j → a.testBit j = false := fun j hj =>
    testBit_ge (show a < 2 ^ 2 by omega) hj
  unfold aref_get
  rw [cr_all_eq]
  rcases Nat.lt_or_ge i 32 with h | h
  · interval_cases i <;>
      simp [Nat.testBit_lor, Nat.testBit_land, Nat.testBit_shiftLeft,
        Nat.testBit_shiftRight, tb_ff, tb_03, tb_fc, ha2]
  · rw [testBit_ge (land_lt_32 _ (by decide)) h, ha2 i (by omega)]

theorem chanSpec_init_flags (c r a f : Nat) (hf : f &&& CR_ALL_VALUE = f) :
    flags_get (chanSpec_init c r a f) = f := by
  rw [chanSpec_init_packed]
  apply Nat.eq_of_testBit_eq
  intro i
  have hfl : ∀ j, j < 26 → f.testBit j = false := by
    intro j hj
    conv_lhs => rw [← hf]
    rw [cr_all_eq, Nat.testBit_land, tb_fc]
    have hno : ¬(26 ≤ j ∧ j < 32) := by omega
    simp [hno]
  have hfh : ∀ j, 32 ≤ j → f.testBit j = false := by
    intro j hj
    conv_lhs => rw [← hf]
    rw [cr_all_eq, Nat.testBit_land, tb_fc]
    have hno : ¬(26 ≤ j ∧ j < 32) := by omega
    simp [hno]
  unfold flags_get
  rw [cr_all_eq]
  rcases Nat.lt_or_ge i 32 with h | h
  · interval_cases i <;>
      simp [Nat.testBit_lor, Nat.testBit_land, Nat.testBit_shiftLeft,
        tb_ff, tb_03, tb_fc, hfl]
  · rw [testBit_ge (land_lt_32 _ (by decide)) h, hfh i h]

/-- Claim C1: for every channel in 0..255, range index in 0..255, aref in
0..3 and flags value contained in the combined flag mask, constructing a
ChanSpec yields the packed word
(channel & 0xFF) | ((range & 0xFF) << 16) | ((aref & 0x03) << 24) |
(flags & flag_all_mask), and reading chan, range, aref and flags back
from that word returns exactly the original four fields. -/
theorem claim_C1 (c r a f : Nat) (hc : c < 256) (hr : r < 256) (ha : a < 4)
    (hf : f &&& CR_ALL_VALUE = f) :
    chanSpec_init c r a f =
      (c &&& 0xff) ||| ((r &&& 0xff) <<< 16) ||| ((a &&& 0x03) <<< 24) |||
        (f &&& CR_ALL_VALUE) ∧
    chan_get (chanSpec_init c r a f) = c ∧
    range_get (chanSpec_init c r a f) = r ∧
    aref_get (chanSpec_init c r a f) = a ∧
    flags_get (chanSpec_init c r a f) = f :=
  ⟨chanSpec_init_packed c r a f, chanSpec_init_chan c r a f hc,
    chanSpec_init_range c r a f hr, chanSpec_init_aref c r a f ha,
    chanSpec_init_flags c r a f hf⟩

/-- Witness for claim C1 at chan 1, range 3, aref 2 (diff) and
flags 0xc0000000 (edge | invert). -/
theorem claim_C1_witness :
    (1 : Nat) < 256 ∧ (3 : Nat) < 256 ∧ (2 : Nat) < 4 ∧
      (0xc0000000 &&& CR_ALL_VALUE = 0xc0000000) ∧
      chan_get (chanSpec_init 1 3 2 0xc0000000) = 1 ∧
      range_get (chanSpec_init 1 3 2 0xc0000000) = 3 ∧
      aref_get (chanSpec_init 1 3 2 0xc0000000) = 2 ∧
      flags_get (chanSpec_init 1 3 2 0xc0000000) = 0xc0000000 :=
  ⟨by decide, by decide, by decide, by decide,
    (claim_C1 1 3 2 0xc0000000 (by decide) (by decide) (by decide)
      (by decide)).2.1,
    (claim_C1 1 3 2 0xc0000000 (by decide) (by decide) (by decide)
      (by decide)).2.2.1,
    (claim_C1 1 3 2 0xc0000000 (by decide) (by decide) (by decide)
      (by decide)).2.2.2.1,
    (claim_C1 1 3 2 0xc0000000 (by decide) (by decide) (by decide)
      (by decide)).2.2.2.2⟩

theorem frame_chan_range (v x : Nat) : range_get (chan_set v x) = range_get v := by
  apply Nat.eq_of_testBit_eq
  intro i
  unfold range_get chan_set
  rw [cs_sub_chan]
  rcases Nat.lt_or_ge i 32 with h | h
  · interval_cases i <;>
      simp [Nat.testBit_lor, Nat.testBit_land, Nat.testBit_shiftLeft,
        Nat.testBit_shiftRight, tb_ff, tb_mask_chan]
  · rw [testBit_ge (land_lt_32 _ (by decide)) h,
      testBit_ge (land_lt_32 _ (by decide)) h]

theorem frame_chan_aref (v x : Nat) : aref_get (chan_set v x) = aref_get v := by
  apply Nat.eq_of_testBit_eq
  intro i
  unfold aref_get chan_set
  rw [cs_sub_chan]
  rcases Nat.lt_or_ge i 32 with h | h
  · interval_cases i <;>
      simp [Nat.testBit_lor, Nat.testBit_land, Nat.testBit_shiftLeft,
        Nat.testBit_shiftRight, tb_ff, tb_03, tb_mask_chan]
  · rw [testBit_ge (land_lt_32 _ (by decide)) h,
      testBit_ge (land_lt_32 _ (by decide)) h]

theorem frame_chan_flags (v x : Nat) : flags_get (chan_set v x) = flags_get v := by
  apply Nat.eq_of_testBit_eq
  intro i
  unfold flags_get chan_set
  rw [cs_sub_chan, cr_all_eq]
  rcases Nat.lt_or_ge i 32 with h | h
  · interval_cases i <;>
      simp [Nat.testBit_lor, Nat.testBit_land, tb_ff, tb_fc, tb_mask_chan]
  · rw [testBit_ge (land_lt_32 _ (by decide)) h,
      testBit_ge (land_lt_32 _ (by decide)) h]

theorem frame_range_chan (v x : Nat) : chan_get (range_set v x) = chan_get v := by
  apply Nat.eq_of_testBit_eq
  intro i
  unfold chan_get range_set
  rw [cs_sub_range]
  rcases Nat.lt_or_ge i 32 with h | h
  · interval_cases i <;>
      simp [Nat.testBit_lor, Nat.testBit_land, Nat.testBit_shiftLeft,
        tb_ff, tb_mask_range]
  · rw [testBit_ge (land_lt_32 _ (by decide)) h,
      testBit_ge (land_lt_32 _ (by decide)) h]

theorem frame_range_aref (v x : Nat) : aref_get (range_set v x) = aref_get v := by
  apply Nat.eq_of_testBit_eq
  intro i
  unfold aref_get range_set
  rw [cs_sub_range]
  rcases Nat.lt_or_ge i 32 with h | h
  · interval_cases i <;>
      simp [Nat.testBit_lor, Nat.testBit_land, Nat.testBit_shiftLeft,
        Nat.testBit_shiftRight, tb_ff, tb_03, tb_mask_range]
  · rw [testBit_ge (land_lt_32 _ (by decide)) h,
      testBit_ge (land_lt_32 _ (by decide)) h]

theorem frame_range_flags (v x : Nat) : flags_get (range_set v x) = flags_get v := by
  apply Nat.eq_of_testBit_eq
  intro i
  unfold flags_get range_set
  rw [cs_sub_range, cr_all_eq]
  rcases Nat.lt_or_ge i 32 with h | h
  · interval_cases i <;>
      simp [Nat.testBit_lor, Nat.testBit_land, Nat.testBit_shiftLeft,
        tb_ff, tb_fc, tb_mask_range]
  · rw [testBit_ge (land_lt_32 _ (by decide)) h,
      testBit_ge (land_lt_32 _ (by decide)) h]

theorem frame_aref_chan (v x : Nat) : chan_get (aref_set v x) = chan_get v := by
  apply Nat.eq_of_testBit_eq
  intro i
  unfold chan_get aref_set
  rw [cs_sub_aref]
  rcases Nat.lt_or_ge i 32 with h | h
  · interval_cases i <;>
      simp [Nat.testBit_lor, Nat.testBit_land, Nat.testBit_shiftLeft,
        tb_ff, tb_03, tb_mask_aref]
  · rw [testBit_ge (land_lt_32 _ (by decide)) h,
      testBit_ge (land_lt_32 _ (by decide)) h]

theorem frame_aref_range (v x : Nat) : range_get (aref_set v x) = range_get v := by
  apply Nat.eq_of_testBit_eq
  intro i
  unfold range_get aref_set
  rw [cs_sub_aref]
  rcases Nat.lt_or_ge i 32 with h | h
  · interval_cases i <;>
      simp [Nat.testBit_lor, Nat.testBit_land, Nat.testBit_shiftLeft,
        Nat.testBit_shiftRight, tb_ff, tb_03, tb_mask_aref]
  · rw [testBit_ge (land_lt_32 _ (by decide)) h,
      testBit_ge (land_lt_32 _ (by decide)) h]

theorem frame_aref_flags (v x : Nat) : flags_get (aref_set v x) = flags_get v := by
  apply Nat.eq_of_testBit_eq
  intro i
  unfold flags_get aref_set
  rw [cs_sub_aref, cr_all_eq]
  rcases Nat.lt_or_ge i 32 with h | h
  · interval_cases i <;>
      simp [Nat.testBit_lor, Nat.testBit_land, Nat.testBit_shiftLeft,
        tb_03, tb_fc, tb_mask_aref]
  · rw [testBit_ge (land_lt_32 _ (by decide)) h,
      testBit_ge (land_lt_32 _ (by decide)) h]

theorem frame_flags_chan (v x : Nat) : chan_get (flags_set v x) = chan_get v := by
  apply Nat.eq_of_testBit_eq
  intro i
  unfold chan_get flags_set
  rw [cs_sub_flags, cr_all_eq]
  rcases Nat.lt_or_ge i 32 with h | h
  · interval_cases i <;>
      simp [Nat.testBit_lor, Nat.testBit_land, tb_ff, tb_fc, tb_low26]
  · rw [testBit_ge (land_lt_32 _ (by decide)) h,
      testBit_ge (land_lt_32 _ (by decide)) h]

theorem frame_flags_range (v x : Nat) : range_get (flags_set v x) = range_get v := by
  apply Nat.eq_of_testBit_eq
  intro i
  unfold range_get flags_set
  rw [cs_sub_flags, cr_all_eq]
  rcases Nat.lt_or_ge i 32 with h | h
  · interval_cases i <;>
      simp [Nat.testBit_lor, Nat.testBit_land, Nat.testBit_shiftRight,
        tb_ff, tb_fc, tb_low26]
  · rw [testBit_ge (land_lt_32 _ (by decide)) h,
      testBit_ge (land_lt_32 _ (by decide)) h]

theorem frame_flags_aref (v x : Nat) : aref_get (flags_set v x) = aref_get v := by
  apply Nat.eq_of_testBit_eq
  intro i
  unfold aref_get flags_set
  rw [cs_sub_flags, cr_all_eq]
  rcases Nat.lt_or_ge i 32 with h | h
  · interval_cases i <;>
      simp [Nat.testBit_lor, Nat.testBit_land, Nat.testBit_shiftRight,
        tb_03, tb_fc, tb_low26]
  · rw [testBit_ge (land_lt_32 _ (by decide)) h,
      testBit_ge (land_lt_32 _ (by decide)) h]

/-- Claim C6: assigning one ChanSpec field (chan, range, aref or flags)
leaves the decoded values of the other three fields unchanged, for every
stored word and every assigned value. -/
theorem claim_C6 (v x : Nat) :
    (range_get (chan_set v x) = range_get v ∧
     aref_get (chan_set v x) = aref_get v ∧
     flags_get (chan_set v x) = flags_get v) ∧
    (chan_get (range_set v x) = chan_get v ∧
     aref_get (range_set v x) = aref_get v ∧
     flags_get (range_set v x) = flags_get v) ∧
    (chan_get (aref_set v x) = chan_get v ∧
     range_get (aref_set v x) = range_get v ∧
     flags_get (aref_set v x) = flags_get v) ∧
    (chan_get (flags_set v x) = chan_get v ∧
     range_get (flags_set v x) = range_get v ∧
     aref_get (flags_set v x) = aref_get v) :=
  ⟨⟨frame_chan_range v x, frame_chan_aref v x, frame_chan_flags v x⟩,
   ⟨frame_range_chan v x, frame_range_aref v x, frame_range_flags v x⟩,
   ⟨frame_aref_chan v x, frame_aref_range v x, frame_aref_flags v x⟩,
   ⟨frame_flags_chan v x, frame_flags_range v x, frame_flags_aref v x⟩⟩

/-- Inclusion-exclusion for Nat bitwise or and and. -/
theorem lor_add_land (m : Nat) : ∀ v : Nat, (v ||| m) + (v &&& m) = v + m := by
  induction m using Nat.binaryRec with
  | z => intro v; simp
  | f b m ih =>
    intro v
    induction v using Nat.bitCasesOn with
    | h a w =>
      rw [Nat.lor_bit, Nat.land_bit, Nat.bit_val, Nat.bit_val, Nat.bit_val,
        Nat.bit_val]
      have h1 := ih w
      cases a <;> cases b <;>
        simp only [Bool.or_false, Bool.or_true, Bool.and_false, Bool.and_true,
          Bool.false_or, Bool.true_or, Bool.false_and, Bool.true_and,
          Bool.toNat_false, Bool.toNat_true] <;> omega

theorem disjoint_lor_eq_add {a b : Nat} (h : a &&& b = 0) : a ||| b = a + b := by
  have h1 := lor_add_land b a
  omega

theorem not32_land_self (m : Nat) (hm : m < 2 ^ 32) :
    (0xffffffff ^^^ m) &&& m = 0 := by
  apply Nat.eq_of_testBit_eq
  intro i
  rw [Nat.testBit_land, Nat.testBit_xor, tb_allones, Nat.zero_testBit]
  rcases Nat.lt_or_ge i 32 with h | h
  · cases hmi : m.testBit i <;> simp [h, hmi]
  · simp [testBit_ge hm h]

theorem not32_sub (m : Nat) (hm : m < 2 ^ 32) :
    0xffffffff ^^^ m = 0xffffffff - m := by
  have hu : (0xffffffff ^^^ m) ||| m = 0xffffffff := by
    apply Nat.eq_of_testBit_eq
    intro i
    rw [Nat.testBit_lor, Nat.testBit_xor, tb_allones]
    rcases Nat.lt_or_ge i 32 with h | h
    · cases hmi : m.testBit i <;> simp [h, hmi]
    · simp [testBit_ge hm h, h]
  have ha := disjoint_lor_eq_add (not32_land_self m hm)
  omega

theorem land_not32_add (v m : Nat) (hv : v < 2 ^ 32) (hm : m < 2 ^ 32) :
    (v &&& (0xffffffff ^^^ m)) + (v &&& m) = v := by
  have hdisj : (v &&& (0xffffffff ^^^ m)) &&& (v &&& m) = 0 := by
    apply Nat.eq_of_testBit_eq
    intro i
    rw [Nat.testBit_land, Nat.testBit_land, Nat.testBit_land, Nat.testBit_xor,
      tb_allones, Nat.zero_testBit]
    rcases Nat.lt_or_ge i 32 with h | h
    · cases hvi : v.testBit i <;> cases hmi : m.testBit i <;> simp [h, hvi, hmi]
    · simp [testBit_ge hm h]
  have hu : (v &&& (0xffffffff ^^^ m)) ||| (v &&& m) = v := by
    apply Nat.eq_of_testBit_eq
    intro i
    rw [Nat.testBit_lor, Nat.testBit_land, Nat.testBit_land, Nat.testBit_xor,
      tb_allones]
    rcases Nat.lt_or_ge i 32 with h | h
    · cases hvi : v.testBit i <;> cases hmi : m.testBit i <;> simp [h, hvi, hmi]
    · simp [testBit_ge hm h, testBit_ge hv h]
  have ha := disjoint_lor_eq_add hdisj
  omega

/-- The subtraction form of clearing a mask: for 32-bit values,
(v | m) - m equals v & ~m, with ~m the 32-bit complement of m. -/
theorem lor_sub_eq_land_not (v m : Nat) (hv : v < 2 ^ 32) (hm : m < 2 ^ 32) :
    (v ||| m) - m = v &&& (0xffffffff ^^^ m) := by
  have h1 := lor_add_land m v
  have h2 := land_not32_add v m hv hm
  omega

/-- Claim C3: for every stored flag value v and member value m,
set(name, true) returns v | m and set(name, false) returns
(v | m) - m, which equals v & ~m (32-bit complement); for a freshly
zeroed FlagValue, setting a member true and then false returns exactly
the original value 0. -/
theorem claim_C3 (v m : Nat) (hv : v < 2 ^ 32) (hm : m < 2 ^ 32) :
    flag_set v m true = v ||| m ∧
    flag_set v m false = (v ||| m) - m ∧
    (v ||| m) - m = v &&& (0xffffffff ^^^ m) ∧
    0xffffffff ^^^ m = 0xffffffff - m ∧
    flag_set (flag_set 0 m true) m false = 0 := by
  refine ⟨rfl, rfl, lor_sub_eq_land_not v m hv hm, not32_sub m hm, ?_⟩
  unfold flag_set
  simp

/-- Witness for claim C3 at v = 5, m = 2. -/
theorem claim_C3_witness :
    (5 : Nat) < 2 ^ 32 ∧ (2 : Nat) < 2 ^ 32 ∧
      (flag_set 5 2 true = 5 ||| 2 ∧
       flag_set 5 2 false = (5 ||| 2) - 2 ∧
       ((5 : Nat) ||| 2) - 2 = 5 &&& (0xffffffff ^^^ 2) ∧
       (0xffffffff : Nat) ^^^ 2 = 0xffffffff - 2 ∧
       flag_set (flag_set 0 2 true) 2 false = 0) :=
  ⟨by decide, by decide, claim_C3 5 2 (by decide) (by decide)⟩

/-- Claim C9: get fails its assertion exactly when the named member has
value zero, and otherwise returns the subset test
value & member.value == member.value; a member whose value is a single
nonzero bit never triggers the assertion, and set has no assertion at
all (it is total, returning the or / cleared value directly). -/
theorem claim_C9 (m v : Nat) :
    (flag_get v m = none ↔ m = 0) ∧
    (m ≠ 0 → flag_get v m = some (decide (v &&& m = m))) ∧
    (∀ k : Nat, m = 2 ^ k → ∃ b : Bool, flag_get v m = some b) ∧
    (∀ status : Bool, flag_set v m status =
      if status then v ||| m else (v ||| m) - m) := by
  refine ⟨?_, ?_, ?_, fun _ => rfl⟩
  · unfold flag_get
    rcases Nat.eq_zero_or_pos m with h | h
    · simp [h]
    · simp [Nat.pos_iff_ne_zero.mp h]
  · intro h
    unfold flag_get
    simp [h]
  · intro k hk
    have h : m ≠ 0 := by
      rw [hk]
      exact Nat.pos_iff_ne_zero.mp (Nat.pos_pow_of_pos k (by norm_num))
    unfold flag_get
    simp [h]

/-- Witness for claim C9 at m = 2, v = 7. -/
theorem claim_C9_witness :
    (2 : Nat) ≠ 0 ∧ flag_get 7 2 = some true :=
  ⟨by decide, by
    have h := (claim_C9 2 7).2.1 (by decide)
    simpa using h⟩

theorem storeAll_of_bounded {w : Nat} (value : List Nat)
    (h : ∀ x ∈ value, x < 2 ^ w) : storeAll w value = some value := by
  induction value with
  | nil => rfl
  | cons x xs ih =>
    have hx : x < 2 ^ w := h x (List.mem_cons_self x xs)
    have hxs := ih fun y hy => h y (List.mem_cons_of_mem x hy)
    unfold storeAll storeCell
    simp [hx, hxs]

theorem insn_set_get (s : InsnState) (value : List Nat)
    (h : ∀ x ∈ value, x < 2 ^ 32) :
    insn_data_set s value true = SetOutcome.ok ⟨value.length, some value⟩ ∧
      insn_data_get ⟨value.length, some value⟩ = value := by
  constructor
  · unfold insn_data_set
    simp [storeAll_of_bounded value h]
  · rfl

theorem cmd_chanlist_set_get (s : CmdState) (entries : List ChanlistEntry)
    (h : ∀ x ∈ entries, resolveEntry x < 2 ^ 32) :
    cmd_chanlist_set s entries true =
        SetOutcome.ok ⟨entries.length, some (entries.map resolveEntry),
          s.data_len, s.data⟩ ∧
      cmd_chanlist_get ⟨entries.length, some (entries.map resolveEntry),
          s.data_len, s.data⟩ = entries.map resolveEntry := by
  constructor
  · have hb : ∀ x ∈ entries.map resolveEntry, x < 2 ^ 32 := by
      intro x hx
      rcases List.mem_map.mp hx with ⟨e, he, rfl⟩
      exact h e he
    unfold cmd_chanlist_set
    simp [storeAll_of_bounded _ hb]
  · rfl

theorem cmd_data_set_get (s : CmdState) (value : List Nat)
    (h : ∀ x ∈ value, x < 2 ^ 16) :
    cmd_data_set s value true =
        SetOutcome.ok ⟨s.chanlist_len, s.chanlist, value.length, some value⟩ ∧
      cmd_data_get ⟨s.chanlist_len, s.chanlist, value.length, some value⟩ =
        value := by
  constructor
  · unfold cmd_data_set
    simp [storeAll_of_bounded value h]
  · rfl

/-- Claim C4: when allocation fails during a data or chanlist
assignment on an Instruction or Command, the operation raises the
out-of-memory PyComediError and the observable post-failure state has
the previously owned buffer released (NULL) and the recorded length
zero, independent of the prior state (no rollback). -/
theorem claim_C4 (s : InsnState) (t : CmdState) (value : List Nat)
    (entries : List ChanlistEntry) :
    (∃ e : InsnState, insn_data_set s value false =
        SetOutcome.memErr e "out of memory?" ∧
      e.n = 0 ∧ e.data = none ∧ insn_data_get e = []) ∧
    (∃ e : CmdState, cmd_chanlist_set t entries false =
        SetOutcome.memErr e "out of memory?" ∧
      e.chanlist_len = 0 ∧ e.chanlist = none ∧ cmd_chanlist_get e = []) ∧
    (∃ e : CmdState, cmd_data_set t value false =
        SetOutcome.memErr e "out of memory?" ∧
      e.data_len = 0 ∧ e.data = none ∧ cmd_data_get e = []) :=
  ⟨⟨⟨0, none⟩, rfl, rfl, rfl, rfl⟩,
   ⟨⟨0, none, t.data_len, t.data⟩, rfl, rfl, rfl, rfl⟩,
   ⟨⟨t.chanlist_len, t.chanlist, 0, none⟩, rfl, rfl, rfl, rfl⟩⟩

/-- Claim C5: reading data (or chanlist) after a successful assignment
returns exactly the values most recently assigned: assigning [] gives a
length-zero view, a following assignment of [1,2,3] reads back [1,2,3]
with no stale elements, in general any in-range assignment reads back
unchanged, and every chanlist entry with a chanspec capability is
resolved to its packed word before storage. -/
theorem claim_C5 (s : InsnState) (t : CmdState) (value dval : List Nat)
    (entries : List ChanlistEntry)
    (hv : ∀ x ∈ value, x < 2 ^ 32) (hd : ∀ x ∈ dval, x < 2 ^ 16)
    (he : ∀ x ∈ entries, resolveEntry x < 2 ^ 32) :
    (∃ s1 : InsnState, insn_data_set s [] true = SetOutcome.ok s1 ∧
      s1.n = 0 ∧ insn_data_get s1 = [] ∧
      ∃ s2 : InsnState, insn_data_set s1 [1, 2, 3] true = SetOutcome.ok s2 ∧
        insn_data_get s2 = [1, 2, 3]) ∧
    (∃ s3 : InsnState, insn_data_set s value true = SetOutcome.ok s3 ∧
      insn_data_get s3 = value) ∧
    (∃ t1 : CmdState, cmd_chanlist_set t entries true = SetOutcome.ok t1 ∧
      cmd_chanlist_get t1 = entries.map resolveEntry) ∧
    (∃ t2 : CmdState, cmd_data_set t dval true = SetOutcome.ok t2 ∧
      cmd_data_get t2 = dval) := by
  refine ⟨?_, ?_, ?_, ?_⟩
  · have h0 := insn_set_get s [] (by intro x hx; cases hx)
    refine ⟨⟨0, some []⟩, h0.1, rfl, rfl, ?_⟩
    have h3 := insn_set_get ⟨0, some []⟩ [1, 2, 3] (by decide)
    exact ⟨⟨3, some [1, 2, 3]⟩, h3.1, h3.2⟩
  · have h := insn_set_get s value hv
    exact ⟨_, h.1, h.2⟩
  · have h := cmd_chanlist_set_get t entries he
    exact ⟨_, h.1, h.2⟩
  · have h := cmd_data_set_get t dval hd
    exact ⟨_, h.1, h.2⟩

/-- Witness for claim C5 at the fresh states, value [1,2,3],
data [7] and chanlist [raw 5, channelLike 1 3 2]. -/
theorem claim_C5_witness :
    (∀ x ∈ [1, 2, 3], x < 2 ^ 32) ∧ (∀ x ∈ [7], x < 2 ^ 16) ∧
      (∀ x ∈ [ChanlistEntry.raw 5, ChanlistEntry.channelLike 1 3 2],
        resolveEntry x < 2 ^ 32) ∧
      (∃ t1 : CmdState,
        cmd_chanlist_set cmd_fresh
            [ChanlistEntry.raw 5, ChanlistEntry.channelLike 1 3 2] true =
          SetOutcome.ok t1 ∧
        cmd_chanlist_get t1 =
          [ChanlistEntry.raw 5,
            ChanlistEntry.channelLike 1 3 2].map resolveEntry) :=
  ⟨by decide, by decide, by decide,
    (claim_C5 insn_fresh cmd_fresh [1, 2, 3] [7]
      [ChanlistEntry.raw 5, ChanlistEntry.channelLike 1 3 2]
      (by decide) (by decide) (by decide)).2.2.1⟩

/-- Claim C10: Command.data cells are 16-bit sampl_t decoded through a
uint16 view, so the exact Command data round-trip holds for elements in
0..65535 and the element 65536 cannot be stored as assigned; Insn.data
cells are 32-bit lsampl_t and round-trip all 32-bit values, 65536
included. -/
theorem claim_C10 (s : InsnState) (t : CmdState) (value16 value32 : List Nat)
    (h16 : ∀ x ∈ value16, x < 2 ^ 16) (h32 : ∀ x ∈ value32, x < 2 ^ 32) :
    (∃ t1 : CmdState, cmd_data_set t value16 true = SetOutcome.ok t1 ∧
      cmd_data_get t1 = value16) ∧
    (∀ allocOk : Bool, ∀ t1 : CmdState,
      cmd_data_set t [65536] allocOk ≠ SetOutcome.ok t1) ∧
    (∃ s1 : InsnState, insn_data_set s [65536] true = SetOutcome.ok s1 ∧
      insn_data_get s1 = [65536]) ∧
    (∃ s2 : InsnState, insn_data_set s value32 true = SetOutcome.ok s2 ∧
      insn_data_get s2 = value32) := by
  refine ⟨?_, ?_, ?_, ?_⟩
  · have h := cmd_data_set_get t value16 h16
    exact ⟨_, h.1, h.2⟩
  · intro allocOk t1
    cases allocOk <;> simp [cmd_data_set, storeAll, storeCell]
  · have h := insn_set_get s [65536] (by decide)
    exact ⟨_, h.1, h.2⟩
  · have h := insn_set_get s value32 h32
    exact ⟨_, h.1, h.2⟩

/-- Witness for claim C10 at the fresh states, value16 [65535] and
value32 [4294967295]. -/
theorem claim_C10_witness :
    (∀ x ∈ [65535], x < 2 ^ 16) ∧ (∀ x ∈ [4294967295], x < 2 ^ 32) ∧
      ((∃ t1 : CmdState,
          cmd_data_set cmd_fresh [65535] true = SetOutcome.ok t1 ∧
          cmd_data_get t1 = [65535]) ∧
        (∀ allocOk : Bool, ∀ t1 : CmdState,
          cmd_data_set cmd_fresh [65536] allocOk ≠ SetOutcome.ok t1) ∧
        (∃ s1 : InsnState,
          insn_data_set insn_fresh [65536] true = SetOutcome.ok s1 ∧
          insn_data_get s1 = [65536]) ∧
        (∃ s2 : InsnState,
          insn_data_set insn_fresh [4294967295] true = SetOutcome.ok s2 ∧
          insn_data_get s2 = [4294967295])) :=
  ⟨by decide, by decide,
    claim_C10 insn_fresh cmd_fresh [65535] [4294967295] (by decide) (by decide)⟩

/-- Claim C7: command_test selects its outcome purely by the numeric
driver code over the closed six-entry taxonomy: code 0 is valid (none),
codes 1..5 give, in order, the fixed strings for cleared unsupported
trigger-source bits, an unsupported trigger-source combination or
multiple triggers, an out-of-range argument, an argument that required
rounding, and an invalid channel list. -/
theorem claim_C7 :
    command_test_errors.length = 6 ∧
    command_test 0 = none ∧
    command_test 1 = some "unsupported *_src trigger" ∧
    command_test 2 = some "unsupported *_src combo, or multiple triggers" ∧
    command_test 3 = some "*_arg out of range" ∧
    command_test 4 = some "*_arg required adjustment" ∧
    command_test 5 = some "invalid chanlist" :=
  ⟨rfl, rfl, rfl, rfl, rfl, rfl, rfl⟩

/-- Counterexample for claim C8: at stored value 0 (no bit set) the
comparison 0 > None still returns true, so "greater than None" does not
test "has any bit set". -/
theorem claim_C8_cex :
    richcmp 0 none 4 = some true ∧ ¬ ((0 : Int) ≠ 0) :=
  ⟨rfl, fun h => h rfl⟩

/-- Claim C8 (amended): rich comparisons are unsigned in the sense that
a raw negative constant is normalized by adding 2^32 before storage
(raw -2147483648 becomes 2147483648 and then compares greater than
zero), and comparison with None substitutes self.value - 1 for None, so
comparing "greater than None" always returns true (it does not
distinguish whether any bit is set). -/
theorem claim_C8 (v : Int) (op : Nat) :
    normalize_value (-2147483648) = 2147483648 ∧
    richcmp (normalize_value (-2147483648)) (some 0) 4 = some true ∧
    richcmp v none op = richcmp v (some (v - 1)) op ∧
    richcmp v none 4 = some true := by
  refine ⟨by decide, by decide, rfl, ?_⟩
  show richcmp v none 4 = some true
  unfold richcmp
  norm_num

theorem valueKeys_eq_none_iff (members : List NamedInt) (v : Nat) :
    valueKeys members v = none ↔ ∀ m ∈ members, m.value ≠ v := by
  unfold valueKeys
  rw [List.find?_eq_none]
  constructor
  · intro h m hm
    have := h m (List.mem_reverse.mpr hm)
    simpa using this
  · intro h m hm
    have := h m (List.mem_reverse.mp hm)
    simpa using this

theorem enumAppend_ok_shape {rn : String} {ms : List NamedInt}
    {item : NamedInt} {l : List NamedInt}
    (h : enumAppend rn ms item = Except.ok l) : l = ms ++ [item] := by
  unfold enumAppend at h
  rcases hv : valueKeys ms item.value with _ | old
  · simp only [hv] at h
    injection h with h2
    exact h2.symm
  · simp only [hv] at h
    by_cases hn : item.name = ""
    · simp only [hn, ne_eq, not_true_eq_false, if_false] at h
      injection h with h2
      exact h2.symm
    · simp only [ne_eq, hn, not_false_eq_true, if_true] at h
      exact Except.noConfusion h

theorem enumAppend_ok_fresh {rn : String} {ms : List NamedInt}
    {item : NamedInt} {l : List NamedInt} (hn : item.name ≠ "")
    (h : enumAppend rn ms item = Except.ok l) :
    ∀ m ∈ ms, m.value ≠ item.value := by
  unfold enumAppend at h
  rcases hv : valueKeys ms item.value with _ | old
  · exact (valueKeys_eq_none_iff ms item.value).mp hv
  · simp only [hv, ne_eq, hn, not_false_eq_true, if_true] at h
    exact Except.noConfusion h

theorem enumAppend_collision {rn : String} {ms : List NamedInt}
    {item old : NamedInt} (hold : old ∈ ms) (hv : old.value = item.value)
    (hn : item.name ≠ "") :
    ∃ old2, enumAppend rn ms item =
        Except.error ⟨rn, item.name, old2.name, item.value⟩ ∧
      old2 ∈ ms ∧ old2.value = item.value := by
  have hsome : (ms.reverse.find? (fun m => m.value == item.value)).isSome := by
    rw [List.find?_isSome]
    exact ⟨old, List.mem_reverse.mpr hold, by simp [hv]⟩
  rcases hfind : ms.reverse.find? (fun m => m.value == item.value) with _ | old2
  · rw [hfind] at hsome
    simp at hsome
  · refine ⟨old2, ?_, List.mem_reverse.mp (List.mem_of_find?_eq_some hfind),
      by simpa using List.find?_some hfind⟩
    unfold enumAppend valueKeys
    simp only [hfind, ne_eq, hn, not_false_eq_true, if_true]

theorem buildEnum_nil (rn : String) (acc : List NamedInt) :
    buildEnum rn acc [] = Except.ok acc := rfl

theorem buildEnum_cons (rn : String) (acc : List NamedInt) (item : NamedInt)
    (rest : List NamedInt) :
    buildEnum rn acc (item :: rest) =
      match enumAppend rn acc item with
      | Except.error c => Except.error c
      | Except.ok ms => buildEnum rn ms rest := rfl

theorem buildEnum_ok_append {rn : String} :
    ∀ (items acc l : List NamedInt),
      buildEnum rn acc items = Except.ok l → l = acc ++ items := by
  intro items
  induction items with
  | nil =>
    intro acc l h
    rw [buildEnum_nil] at h
    injection h with h2
    simp [h2.symm]
  | cons item rest ih =>
    intro acc l h
    rw [buildEnum_cons] at h
    rcases he : enumAppend rn acc item with c | ms
    · simp only [he] at h
      exact Except.noConfusion h
    · simp only [he] at h
      have hms := enumAppend_ok_shape he
      rw [ih ms l h, hms]
      simp

theorem buildEnum_ok_nodup {rn : String} :
    ∀ (items acc l : List NamedInt),
      (∀ it ∈ items, it.name ≠ "") →
      (acc.map NamedInt.value).Nodup →
      buildEnum rn acc items = Except.ok l →
      (l.map NamedInt.value).Nodup := by
  intro items
  induction items with
  | nil =>
    intro acc l _ hacc h
    rw [buildEnum_nil] at h
    injection h with h2
    rw [← h2]
    exact hacc
  | cons item rest ih =>
    intro acc l hn hacc h
    rw [buildEnum_cons] at h
    rcases he : enumAppend rn acc item with c | ms
    · simp only [he] at h
      exact Except.noConfusion h
    · simp only [he] at h
      have hms := enumAppend_ok_shape he
      have hfresh := enumAppend_ok_fresh (hn item (by simp)) he
      have hnodup : (ms.map NamedInt.value).Nodup := by
        rw [hms, List.map_append, List.nodup_append]
        refine ⟨hacc, by simp, ?_⟩
        simp only [List.map_cons, List.map_nil, List.disjoint_singleton]
        intro hmem
        rcases List.mem_map.mp hmem with ⟨m, hm, hval⟩
        exact hfresh m hm hval
      exact ih ms l (fun it hit => hn it (by simp [hit])) hnodup h

theorem scan_nil (rn : String) (acc : Option NamedInt × Option NamedInt) :
    scanSentinels rn acc [] = Except.ok acc := rfl

theorem scan_cons (rn : String) (acc : Option NamedInt × Option NamedInt)
    (f : NamedInt) (rest : List NamedInt) :
    scanSentinels rn acc (f :: rest) =
      if f.value = 0 then scanSentinels rn (some f, acc.2) rest
      else if isMultiBit f.value then
        match acc.2 with
        | some prev =>
          Except.error ⟨rn, prev.name, prev.value, f.name, f.value⟩
        | none => scanSentinels rn (acc.1, some f) rest
      else scanSentinels rn acc rest := rfl

theorem scan_fst_of_no_zero {rn : String} :
    ∀ (rest : List NamedInt) (acc res : Option NamedInt × Option NamedInt),
      (∀ y ∈ rest, y.value ≠ 0) →
      scanSentinels rn acc rest = Except.ok res → res.1 = acc.1 := by
  intro rest
  induction rest with
  | nil =>
    intro acc res _ h
    rw [scan_nil] at h
    injection h with h2
    rw [← h2]
  | cons f rest ih =>
    intro acc res hz h
    rw [scan_cons] at h
    have hf : f.value ≠ 0 := hz f (by simp)
    rw [if_neg hf] at h
    by_cases hm : isMultiBit f.value = true
    · rw [if_pos hm] at h
      rcases hacc : acc.2 with _ | prev
      · simp only [hacc] at h
        exact ih (acc.1, some f) res (fun y hy => hz y (by simp [hy])) h
      · simp only [hacc] at h
        exact Except.noConfusion h
    · rw [if_neg hm] at h
      exact ih acc res (fun y hy => hz y (by simp [hy])) h

theorem scan_fst_of_zero {rn : String} :
    ∀ (rest : List NamedInt) (acc res : Option NamedInt × Option NamedInt)
      (z : NamedInt),
      z ∈ rest → z.value = 0 → (∀ y ∈ rest, y.value = 0 → y = z) →
      scanSentinels rn acc rest = Except.ok res → res.1 = some z := by
  intro rest
  induction rest with
  | nil =>
    intro acc res z hz
    exact absurd hz (List.not_mem_nil z)
  | cons f rest ih =>
    intro acc res z hz hz0 huniq h
    rw [scan_cons] at h
    by_cases hf : f.value = 0
    · rw [if_pos hf] at h
      have hfz : f = z := huniq f (by simp) hf
      by_cases hrest : ∀ y ∈ rest, y.value ≠ 0
      · have := scan_fst_of_no_zero rest (some f, acc.2) res hrest h
        rw [this, hfz]
      · push_neg at hrest
        rcases hrest with ⟨y, hy, hy0⟩
        have hyz : y = z := huniq y (by simp [hy]) hy0
        exact ih (some f, acc.2) res z (hyz ▸ hy) hz0
          (fun w hw hw0 => huniq w (by simp [hw]) hw0) h
    · have hzf : z ≠ f := fun e => hf (e ▸ hz0)
      have hzr : z ∈ rest := by
        rcases List.mem_cons.mp hz with h1 | h1
        · exact absurd h1 hzf
        · exact h1
      rw [if_neg hf] at h
      by_cases hm : isMultiBit f.value = true
      · rw [if_pos hm] at h
        rcases hacc : acc.2 with _ | prev
        · simp only [hacc] at h
          exact ih (acc.1, some f) res z hzr hz0
            (fun w hw hw0 => huniq w (by simp [hw]) hw0) h
        · simp only [hacc] at h
          exact Except.noConfusion h
      · rw [if_neg hm] at h
        exact ih acc res z hzr hz0
          (fun w hw hw0 => huniq w (by simp [hw]) hw0) h

theorem scan_snd_of_no_multibit {rn : String} :
    ∀ (rest : List NamedInt) (acc res : Option NamedInt × Option NamedInt),
      (∀ y ∈ rest, isMultiBit y.value = false) →
      scanSentinels rn acc rest = Except.ok res → res.2 = acc.2 := by
  intro rest
  induction rest with
  | nil =>
    intro acc res _ h
    rw [scan_nil] at h
    injection h with h2
    rw [← h2]
  | cons f rest ih =>
    intro acc res hmb h
    rw [scan_cons] at h
    have hf : isMultiBit f.value = false := hmb f (by simp)
    by_cases h0 : f.value = 0
    · rw [if_pos h0] at h
      exact ih (some f, acc.2) res (fun y hy => hmb y (by simp [hy])) h
    · rw [if_neg h0, if_neg (by simp [hf])] at h
      exact ih acc res (fun y hy => hmb y (by simp [hy])) h

theorem scan_snd_of_multibit {rn : String} :
    ∀ (rest : List NamedInt) (acc res : Option NamedInt × Option NamedInt)
      (a : NamedInt),
      a ∈ rest → isMultiBit a.value = true →
      (∀ y ∈ rest, isMultiBit y.value = true → y = a) →
      scanSentinels rn acc rest = Except.ok res → res.2 = some a := by
  intro rest
  induction rest with
  | nil =>
    intro acc res a ha
    exact absurd ha (List.not_mem_nil a)
  | cons f rest ih =>
    intro acc res a ha ham huniq h
    rw [scan_cons] at h
    by_cases hf : f.value = 0
    · rw [if_pos hf] at h
      have haf : a ≠ f := by
        intro e
        rw [e, hf] at ham
        simp [isMultiBit] at ham
      have har : a ∈ rest := by
        rcases List.mem_cons.mp ha with h1 | h1
        · exact absurd h1 haf
        · exact h1
      exact ih (some f, acc.2) res a har ham
        (fun w hw hw0 => huniq w (by simp [hw]) hw0) h
    · rw [if_neg hf] at h
      by_cases hm : isMultiBit f.value = true
      · rw [if_pos hm] at h
        have hfa : f = a := huniq f (by simp) hm
        rcases hacc : acc.2 with _ | prev
        · simp only [hacc] at h
          by_cases hrest : ∀ y ∈ rest, isMultiBit y.value = false
          · have := scan_snd_of_no_multibit rest (acc.1, some f) res hrest h
            rw [this, hfa]
          · push_neg at hrest
            rcases hrest with ⟨y, hy, hym⟩
            have hym2 : isMultiBit y.value = true := by
              cases hcase : isMultiBit y.value
              · exact absurd hcase hym
              · rfl
            have hya : y = a := huniq y (by simp [hy]) hym2
            exact ih (acc.1, some f) res a (hya ▸ hy) ham
              (fun w hw hw0 => huniq w (by simp [hw]) hw0) h
        · simp only [hacc] at h
          exact Except.noConfusion h
      · rw [if_neg hm] at h
        have haf : a ≠ f := by
          intro e
          rw [← e] at hm
          exact hm ham
        have har : a ∈ rest := by
          rcases List.mem_cons.mp ha with h1 | h1
          · exact absurd h1 haf
          · exact h1
        exact ih acc res a har ham
          (fun w hw hw0 => huniq w (by simp [hw]) hw0) h

theorem scan_err_of_pending {rn : String} :
    ∀ (rest : List NamedInt) (acc res : Option NamedInt × Option NamedInt)
      (p : NamedInt),
      acc.2 = some p → (∃ y ∈ rest, isMultiBit y.value = true) →
      scanSentinels rn acc rest ≠ Except.ok res := by
  intro rest
  induction rest with
  | nil =>
    intro acc res p _ hex
    rcases hex with ⟨y, hy, _⟩
    exact absurd hy (List.not_mem_nil y)
  | cons f rest ih =>
    intro acc res p hp hex h
    rw [scan_cons] at h
    by_cases hf : f.value = 0
    · rw [if_pos hf] at h
      rcases hex with ⟨y, hy, hym⟩
      have hyf : y ≠ f := by
        intro e
        rw [e, hf] at hym
        simp [isMultiBit] at hym
      have hyr : y ∈ rest := by
        rcases List.mem_cons.mp hy with h1 | h1
        · exact absurd h1 hyf
        · exact h1
      exact ih (some f, acc.2) res p hp ⟨y, hyr, hym⟩ h
    · rw [if_neg hf] at h
      by_cases hm : isMultiBit f.value = true
      · rw [if_pos hm, hp] at h
        exact Except.noConfusion h
      · rw [if_neg hm] at h
        rcases hex with ⟨y, hy, hym⟩
        have hyf : y ≠ f := by
          intro e
          rw [← e] at hm
          exact hm hym
        have hyr : y ∈ rest := by
          rcases List.mem_cons.mp hy with h1 | h1
          · exact absurd h1 hyf
          · exact h1
        exact ih acc res p hp ⟨y, hyr, hym⟩ h

theorem scan_err_of_two_multibit {rn : String} :
    ∀ (rest : List NamedInt) (acc res : Option NamedInt × Option NamedInt)
      (a b : NamedInt),
      a ∈ rest → b ∈ rest → a ≠ b →
      isMultiBit a.value = true → isMultiBit b.value = true →
      scanSentinels rn acc rest ≠ Except.ok res := by
  intro rest
  induction rest with
  | nil =>
    intro acc res a b ha
    exact absurd ha fun h => (List.not_mem_nil a) h
  | cons f rest ih =>
    intro acc res a b ha hb hab ham hbm h
    rw [scan_cons] at h
    by_cases hf : f.value = 0
    · rw [if_pos hf] at h
      have haf : a ≠ f := by
        intro e
        rw [e, hf] at ham
        simp [isMultiBit] at ham
      have hbf : b ≠ f := by
        intro e
        rw [e, hf] at hbm
        simp [isMultiBit] at hbm
      have har : a ∈ rest := by
        rcases List.mem_cons.mp ha with h1 | h1
        · exact absurd h1 haf
        · exact h1
      have hbr : b ∈ rest := by
        rcases List.mem_cons.mp hb with h1 | h1
        · exact absurd h1 hbf
        · exact h1
      exact ih (some f, acc.2) res a b har hbr hab ham hbm h
    · rw [if_neg hf] at h
      by_cases hm : isMultiBit f.value = true
      · rw [if_pos hm] at h
        rcases hacc : acc.2 with _ | prev
        · simp only [hacc] at h
          rcases List.mem_cons.mp ha with ha1 | ha1
          · have hbr : b ∈ rest := by
              rcases List.mem_cons.mp hb with h1 | h1
              · exact absurd (h1.trans ha1.symm) (Ne.symm hab)
              · exact h1
            exact scan_err_of_pending rest (acc.1, some f) res f rfl
              ⟨b, hbr, hbm⟩ h
          · exact scan_err_of_pending rest (acc.1, some f) res f rfl
              ⟨a, ha1, ham⟩ h
        · simp only [hacc] at h
          exact Except.noConfusion h
      · rw [if_neg hm] at h
        have haf : a ≠ f := by
          intro e
          rw [← e] at hm
          exact hm ham
        have hbf : b ≠ f := by
          intro e
          rw [← e] at hm
          exact hm hbm
        have har : a ∈ rest := by
          rcases List.mem_cons.mp ha with h1 | h1
          · exact absurd h1 haf
          · exact h1
        have hbr : b ∈ rest := by
          rcases List.mem_cons.mp hb with h1 | h1
          · exact absurd h1 hbf
          · exact h1
        exact ih acc res a b har hbr hab ham hbm h

theorem scan_fst_cases {rn : String} :
    ∀ (rest : List NamedInt) (acc res : Option NamedInt × Option NamedInt),
      scanSentinels rn acc rest = Except.ok res →
      res.1 = acc.1 ∨ ∃ e, res.1 = some e ∧ e ∈ rest ∧ e.value = 0 := by
  intro rest
  induction rest with
  | nil =>
    intro acc res h
    rw [scan_nil] at h
    injection h with h2
    left
    rw [← h2]
  | cons f rest ih =>
    intro acc res h
    rw [scan_cons] at h
    by_cases hf : f.value = 0
    · rw [if_pos hf] at h
      rcases ih (some f, acc.2) res h with h1 | ⟨e, he1, he2, he3⟩
      · right
        exact ⟨f, h1, by simp, hf⟩
      · right
        exact ⟨e, he1, by simp [he2], he3⟩
    · rw [if_neg hf] at h
      by_cases hm : isMultiBit f.value = true
      · rw [if_pos hm] at h
        rcases hacc : acc.2 with _ | prev
        · simp only [hacc] at h
          rcases ih (acc.1, some f) res h with h1 | ⟨e, he1, he2, he3⟩
          · left
            exact h1
          · right
            exact ⟨e, he1, by simp [he2], he3⟩
        · simp only [hacc] at h
          exact Except.noConfusion h
      · rw [if_neg hm] at h
        rcases ih acc res h with h1 | ⟨e, he1, he2, he3⟩
        · left
          exact h1
        · right
          exact ⟨e, he1, by simp [he2], he3⟩

theorem scan_snd_cases {rn : String} :
    ∀ (rest : List NamedInt) (acc res : Option NamedInt × Option NamedInt),
      scanSentinels rn acc rest = Except.ok res →
      res.2 = acc.2 ∨
        ∃ a, res.2 = some a ∧ a ∈ rest ∧ isMultiBit a.value = true := by
  intro rest
  induction rest with
  | nil =>
    intro acc res h
    rw [scan_nil] at h
    injection h with h2
    left
    rw [← h2]
  | cons f rest ih =>
    intro acc res h
    rw [scan_cons] at h
    by_cases hf : f.value = 0
    · rw [if_pos hf] at h
      rcases ih (some f, acc.2) res h with h1 | ⟨a, ha1, ha2, ha3⟩
      · left
        exact h1
      · right
        exact ⟨a, ha1, by simp [ha2], ha3⟩
    · rw [if_neg hf] at h
      by_cases hm : isMultiBit f.value = true
      · rw [if_pos hm] at h
        rcases hacc : acc.2 with _ | prev
        · simp only [hacc] at h
          rcases ih (acc.1, some f) res h with h1 | ⟨a, ha1, ha2, ha3⟩
          · right
            exact ⟨f, h1, by simp, hm⟩
          · right
            exact ⟨a, ha1, by simp [ha2], ha3⟩
        · simp only [hacc] at h
          exact Except.noConfusion h
      · rw [if_neg hm] at h
        rcases ih acc res h with h1 | ⟨a, ha1, ha2, ha3⟩
        · left
          exact h1
        · right
          exact ⟨a, ha1, by simp [ha2], ha3⟩

theorem eraseP_not_mem_of_values_nodup {l : List NamedInt} {z : NamedInt}
    (hnd : (l.map NamedInt.value).Nodup) (hz : z ∈ l) :
    z ∉ List.eraseP (fun (m : NamedInt) => m.value == z.value) l := by
  rcases @List.exists_of_eraseP NamedInt
      (fun (m : NamedInt) => m.value == z.value) l z hz
      (beq_self_eq_true z.value) with
    ⟨a, l₁, l₂, hl₁, hpa, hsplit, herase⟩
  have hael : a ∈ l := by
    rw [hsplit]
    simp
  have haz : a = z :=
    List.inj_on_of_nodup_map hnd hael hz (by simpa using hpa)
  rw [herase]
  intro hmem
  rcases List.mem_append.mp hmem with h1 | h2
  · have := hl₁ z h1
    simp at this
  · have hlnd : l.Nodup := List.Nodup.of_map _ hnd
    rw [hsplit, haz] at hlnd
    have hcons := (List.nodup_append.mp hlnd).2.1
    exact (List.nodup_cons.mp hcons).1 h2

theorem eraseP_mem_of_value_ne {l : List NamedInt} {m : NamedInt} {v : Nat}
    (hm : m ∈ l) (hne : m.value ≠ v) :
    m ∈ List.eraseP (fun (x : NamedInt) => x.value == v) l :=
  (List.mem_eraseP_of_neg (by simp [hne])).mpr hm

theorem nameKeys_of_nodup {l : List NamedInt} {z : NamedInt}
    (hnd : (l.map NamedInt.name).Nodup) (hz : z ∈ l) :
    nameKeys l z.name = some z := by
  unfold nameKeys
  have hsome : (l.reverse.find? (fun m => m.name == z.name)).isSome := by
    rw [List.find?_isSome]
    exact ⟨z, List.mem_reverse.mpr hz, by simp⟩
  rcases hfind : l.reverse.find? (fun m => m.name == z.name) with _ | w
  · rw [hfind] at hsome
    simp at hsome
  · have hw : w ∈ l := List.mem_reverse.mp (List.mem_of_find?_eq_some hfind)
    have hwn : w.name = z.name := by simpa using List.find?_some hfind
    rw [hfind, List.inj_on_of_nodup_map hnd hw hz hwn]

theorem insertSorted_perm (m : NamedInt) :
    ∀ l : List NamedInt, (insertSorted m l).Perm (m :: l) := by
  intro l
  induction l with
  | nil => exact List.Perm.refl _
  | cons x xs ih =>
    unfold insertSorted
    by_cases h : x.value ≤ m.value
    · rw [if_pos h]
      exact ((ih.cons x).trans (List.Perm.swap m x xs))
    · rw [if_neg h]

theorem sortByValue_perm : ∀ l : List NamedInt, (sortByValue l).Perm l := by
  intro l
  induction l with
  | nil => exact List.Perm.refl _
  | cons x xs ih =>
    unfold sortByValue
    exact (insertSorted_perm x (sortByValue xs)).trans (ih.cons x)

theorem isMultiBit_ne_zero {v : Nat} (h : isMultiBit v = true) : v ≠ 0 := by
  intro e
  rw [e] at h
  simp [isMultiBit] at h

/-- Claim C2: no two members of a constructed registry share a value
(appending a member with an already-used value fails, naming both
colliding members); in a Flag registry the zero-valued member becomes
the empty sentinel and the unique multi-bit member becomes the all
sentinel, both excluded from the visible member sequence but still
addressable by name, and a second multi-bit member makes construction
fail. -/
theorem claim_C2 (rn : String) (items : List NamedInt)
    (hnames : ∀ it ∈ items, it.name ≠ "")
    (hnn : (items.map NamedInt.name).Nodup) :
    (∀ (members : List NamedInt) (item old : NamedInt),
      old ∈ members → old.value = item.value → item.name ≠ "" →
      ∃ old2, enumAppend rn members item =
          Except.error ⟨rn, item.name, old2.name, item.value⟩ ∧
        old2 ∈ members ∧ old2.value = item.value) ∧
    (∀ built, buildEnum rn [] items = Except.ok built →
      (built.map NamedInt.value).Nodup) ∧
    (∀ fl, flagInit rn items = Except.ok fl →
      (∀ z ∈ fl.appended, z.value = 0 →
        fl.empty = some z ∧ z ∉ fl.members ∧
        nameKeys fl.appended z.name = some z) ∧
      (∀ a ∈ fl.appended, isMultiBit a.value = true →
        fl.all = some a ∧ a ∉ fl.members ∧
        nameKeys fl.appended a.name = some a) ∧
      (∀ m ∈ fl.appended, m.value ≠ 0 → isMultiBit m.value = false →
        m ∈ fl.members)) ∧
    (∀ built a b, buildEnum rn [] items = Except.ok built →
      a ∈ built → b ∈ built → a ≠ b →
      isMultiBit a.value = true → isMultiBit b.value = true →
      ∃ c, flagInit rn items = Except.error (RegError.multiBit c)) := by
  refine ⟨?_, ?_, ?_, ?_⟩
  · intro members item old hold hv hn
    exact enumAppend_collision hold hv hn
  · intro built h
    exact buildEnum_ok_nodup items [] built hnames (by simp) h
  · intro fl h
    unfold flagInit at h
    rcases hb : buildEnum rn [] items with c | built
    · simp only [hb] at h
      exact Except.noConfusion h
    · simp only [hb] at h
      rcases hs : scanSentinels rn (none, none)
          (sortByValue built) with
        c | acc
      · simp only [hs] at h
        exact Except.noConfusion h
      · simp only [hs] at h
        injection h with h2
        subst h2
        have hbuilt_items : built = items := by
          have := buildEnum_ok_append items [] built hb
          simpa using this
        have hvnd : (built.map NamedInt.value).Nodup :=
          buildEnum_ok_nodup items [] built hnames (by simp) hb
        have hperm := sortByValue_perm built
        have hsvnd :
            ((sortByValue built).map NamedInt.value).Nodup :=
          (List.Perm.map NamedInt.value hperm.symm).nodup hvnd
        have hsnnd :
            ((sortByValue built).map NamedInt.name).Nodup :=
          (List.Perm.map NamedInt.name hperm.symm).nodup
            (hbuilt_items ▸ hnn)
        refine ⟨?_, ?_, ?_⟩
        · -- the zero-valued member
          intro z hz hz0
          have hzs : z ∈ sortByValue built :=
            (sortByValue_perm built).mem_iff.mpr hz
          have huniq : ∀ y ∈ sortByValue built,
              y.value = 0 → y = z := fun y hy hy0 =>
            List.inj_on_of_nodup_map hsvnd hy hzs (hy0.trans hz0.symm)
          have hfst := scan_fst_of_zero _ (none, none) acc z hzs hz0 huniq hs
          refine ⟨hfst, ?_, nameKeys_of_nodup (hbuilt_items ▸ hnn) hz⟩
          show z ∉ _
          rw [hfst]
          have hz0v : z.value = (z.value : Nat) := rfl
          have hnotv1 :
              z ∉ List.eraseP (fun (m : NamedInt) => m.value == z.value)
                (sortByValue built) :=
            eraseP_not_mem_of_values_nodup hsvnd hzs
          rcases acc.2 with _ | a2
          · exact hnotv1
          · intro hmem
            exact hnotv1 (List.Sublist.mem hmem (List.eraseP_sublist _))
        · -- the multi-bit member
          intro a ha ham
          have has : a ∈ sortByValue built :=
            (sortByValue_perm built).mem_iff.mpr ha
          have huniq : ∀ y ∈ sortByValue built,
              isMultiBit y.value = true → y = a := by
            intro y hy hym
            by_contra hne
            exact scan_err_of_two_multibit _ (none, none) acc y a hy has hne
              hym ham hs
          have hsnd := scan_snd_of_multibit _ (none, none) acc a has ham huniq hs
          refine ⟨hsnd, ?_, nameKeys_of_nodup (hbuilt_items ▸ hnn) ha⟩
          show a ∉ _
          rw [hsnd]
          have hav1 : a ∈ (match acc.1 with
              | some e => List.eraseP (fun (m : NamedInt) => m.value == e.value)
                  (sortByValue built)
              | none => sortByValue built) := by
            rcases hacc1 : acc.1 with _ | e
            · exact has
            · rcases scan_fst_cases _ (none, none) acc hs with h1 | ⟨e2, he1, _, he3⟩
              · rw [hacc1] at h1
                exact Option.noConfusion h1
              · rw [hacc1] at he1
                injection he1 with he1
                have hev : e.value = 0 := he1 ▸ he3
                exact eraseP_mem_of_value_ne has
                  (fun hcontra => isMultiBit_ne_zero ham (hcontra.trans hev))
          have hv1nd : ((match acc.1 with
              | some e => List.eraseP (fun (m : NamedInt) => m.value == e.value)
                  (sortByValue built)
              | none => sortByValue built).map
                NamedInt.value).Nodup := by
            rcases acc.1 with _ | e
            · exact hsvnd
            · exact (List.Sublist.map NamedInt.value
                (List.eraseP_sublist _)).nodup hsvnd
          exact eraseP_not_mem_of_values_nodup hv1nd hav1
        · -- the ordinary single-bit members stay visible
          intro m hm hm0 hmm
          have hms : m ∈ sortByValue built :=
            (sortByValue_perm built).mem_iff.mpr hm
          show m ∈ _
          have hmv1 : m ∈ (match acc.1 with
              | some e => List.eraseP (fun (x : NamedInt) => x.value == e.value)
                  (sortByValue built)
              | none => sortByValue built) := by
            rcases hacc1 : acc.1 with _ | e
            · exact hms
            · rcases scan_fst_cases _ (none, none) acc hs with h1 | ⟨e2, he1, _, he3⟩
              · rw [hacc1] at h1
                exact Option.noConfusion h1
              · rw [hacc1] at he1
                injection he1 with he1
                have hev : e.value = 0 := he1 ▸ he3
                exact eraseP_mem_of_value_ne hms
                  (fun hcontra => hm0 (hcontra.trans hev))
          rcases hacc2 : acc.2 with _ | a2
          · exact hmv1
          · rcases scan_snd_cases _ (none, none) acc hs with h1 | ⟨a3, ha1, _, ha3m⟩
            · rw [hacc2] at h1
              exact Option.noConfusion h1
            · rw [hacc2] at ha1
              injection ha1 with ha1
              have ha2m : isMultiBit a2.value = true := ha1 ▸ ha3m
              refine eraseP_mem_of_value_ne hmv1 (fun hcontra => ?_)
              have hfalse : isMultiBit a2.value = false := hcontra ▸ hmm
              rw [ha2m] at hfalse
              exact Bool.noConfusion hfalse
  · intro built a b hb hA hB hab ham hbm
    unfold flagInit
    rw [hb]
    rcases hs : scanSentinels rn (none, none)
        (sortByValue built) with c | acc
    · exact ⟨c, by simp only [hs]⟩
    · exact absurd hs (scan_err_of_two_multibit _ (none, none) acc a b
        ((sortByValue_perm built).mem_iff.mpr hA) ((sortByValue_perm built).mem_iff.mpr hB) hab ham hbm)

/-- Witness for claim C2 on a small trigger-source style registry with
an empty sentinel (value 0) and an all sentinel (value 7). -/
theorem claim_C2_witness :
    (∀ it ∈ ([⟨"none", 0⟩, ⟨"now", 1⟩, ⟨"follow", 2⟩, ⟨"time", 4⟩,
        ⟨"any", 7⟩] : List NamedInt), it.name ≠ "") ∧
    ((([⟨"none", 0⟩, ⟨"now", 1⟩, ⟨"follow", 2⟩, ⟨"time", 4⟩,
        ⟨"any", 7⟩] : List NamedInt).map NamedInt.name).Nodup) ∧
    ∃ fl : FlagReg,
      flagInit "trigger_source_flags"
          ([⟨"none", 0⟩, ⟨"now", 1⟩, ⟨"follow", 2⟩, ⟨"time", 4⟩,
            ⟨"any", 7⟩] : List NamedInt) = Except.ok fl ∧
      fl.empty = some ⟨"none", 0⟩ ∧ fl.all = some ⟨"any", 7⟩ ∧
      (⟨"none", 0⟩ : NamedInt) ∉ fl.members ∧
      (⟨"now", 1⟩ : NamedInt) ∈ fl.members := by
  have hmain := claim_C2 "trigger_source_flags"
    [⟨"none", 0⟩, ⟨"now", 1⟩, ⟨"follow", 2⟩, ⟨"time", 4⟩, ⟨"any", 7⟩]
    (by decide) (by decide)
  have hflag : flagInit "trigger_source_flags"
      ([⟨"none", 0⟩, ⟨"now", 1⟩, ⟨"follow", 2⟩, ⟨"time", 4⟩,
        ⟨"any", 7⟩] : List NamedInt) =
      Except.ok ⟨[⟨"now", 1⟩, ⟨"follow", 2⟩, ⟨"time", 4⟩],
        [⟨"none", 0⟩, ⟨"now", 1⟩, ⟨"follow", 2⟩, ⟨"time", 4⟩, ⟨"any", 7⟩],
        some ⟨"none", 0⟩, some ⟨"any", 7⟩⟩ := rfl
  obtain ⟨h3a, h3b, h3c⟩ := hmain.2.2.1 _ hflag
  have h1 := h3a ⟨"none", 0⟩ (by decide) rfl
  have h2 := h3b ⟨"any", 7⟩ (by decide) (by decide)
  have h4 := h3c ⟨"now", 1⟩ (by decide) (by decide) (by decide)
  exact ⟨by decide, by decide, _, hflag, h1.1, h2.1, h1.2.1, h4⟩
